import Mathlib

/-!
Shallow embedding of boltons ioutils.py: the spooled stream classes
SpooledIOBase, SpooledBytesIO and SpooledStringIO.

Modelling conventions:
  * Byte strings are lists of naturals (one per byte); text values are lists
    of naturals (one per Unicode code point).
  * BytesIO and TemporaryFile share the same read/write/seek/tell semantics,
    so both are modelled by the FLO structure (data plus cursor); which of the
    two a stream currently holds is recorded by the boolean field rolled,
    mirroring the source property _rolled = not isinstance(buffer, BytesIO).
  * codecs.EncodedFile(..., data_encoding=utf-8) is a codecs.StreamRecoder
    (CPython 3 codecs): on the write path bytes pass through unchanged
    (strict decode, then the StreamWriter re-encodes), but the read path goes
    through a codecs.StreamReader that counts sizes in decoded characters and
    keeps undecoded tail bytes, surplus decoded characters and cached lines
    in internal buffers.  The EncFile structure models the recoder: the
    wrapped raw stream plus the reader's bytebuffer, charbuffer and
    linebuffer.
  * Fallible operations return Except IOErr; a Python exception corresponds
    to the error case.
-/

set_option maxRecDepth 4096

/-- Concatenation of a list of byte strings (models joining written chunks). -/
def joinAll : List (List Nat) → List Nat
  | [] => []
  | l :: ls => l ++ joinAll ls

/-- Bytes of a buffer through the first newline byte 10, inclusive; the whole
buffer when it holds no newline.  Models the line scan of BytesIO.readline. -/
def takeLine : List Nat → List Nat
  | [] => []
  | b :: t => if b = 10 then [10] else b :: takeLine t

/-- Worker for splitLinesB, carrying the reversed current line. -/
def splitLinesGo : List Nat → List Nat → List (List Nat)
  | [], acc => if acc.isEmpty then [] else [acc.reverse]
  | b :: t, acc =>
      if b = 10 then (acc.reverse ++ [10]) :: splitLinesGo t []
      else splitLinesGo t (b :: acc)

/-- Split a byte buffer into its lines, each keeping its trailing newline;
models BytesIO.readlines on the remaining bytes. -/
def splitLinesB (l : List Nat) : List (List Nat) := splitLinesGo l []

/-- Whether a byte is a UTF-8 continuation byte (0x80..0xBF). -/
def isCont (b : Nat) : Bool := 0x80 ≤ b && b < 0xC0

/-- UTF-8 encoding of a single Unicode code point, as Python's str.encode
produces for a valid scalar value. -/
def utf8EncodeChar (c : Nat) : List Nat :=
  if c < 0x80 then [c]
  else if c < 0x800 then [0xC0 + c / 0x40, 0x80 + c % 0x40]
  else if c < 0x10000 then
    [0xE0 + c / 0x1000, 0x80 + (c / 0x40) % 0x40, 0x80 + c % 0x40]
  else
    [0xF0 + c / 0x40000, 0x80 + (c / 0x1000) % 0x40,
     0x80 + (c / 0x40) % 0x40, 0x80 + c % 0x40]

/-- UTF-8 encoding of a text value (models s.encode in SpooledStringIO.write). -/
def utf8Encode : List Nat → List Nat
  | [] => []
  | c :: cs => utf8EncodeChar c ++ utf8Encode cs

/-- Fuel-driven worker for strict UTF-8 decoding.  Each decoded code point
consumes one unit of fuel and at least one byte, so fuel equal to the byte
count (as the wrapper utf8Decode supplies) never runs out; the fuel-exhausted
branch exists only to make the recursion structural. -/
def utf8DecodeGo : Nat → List Nat → Option (List Nat)
  | _, [] => some []
  | 0, _ :: _ => none
  | fuel + 1, b0 :: t =>
    if b0 < 0x80 then
      Option.map (fun cs => b0 :: cs) (utf8DecodeGo fuel t)
    else if b0 < 0xC2 then none
    else if b0 < 0xE0 then
      match t with
      | b1 :: t1 =>
        if isCont b1 then
          Option.map (fun cs => ((b0 - 0xC0) * 0x40 + (b1 - 0x80)) :: cs)
            (utf8DecodeGo fuel t1)
        else none
      | [] => none
    else if b0 < 0xF0 then
      match t with
      | b1 :: b2 :: t2 =>
        if (if b0 = 0xE0 then decide (0xA0 ≤ b1) && decide (b1 < 0xC0)
            else if b0 = 0xED then decide (0x80 ≤ b1) && decide (b1 < 0xA0)
            else isCont b1) && isCont b2 then
          Option.map
            (fun cs => ((b0 - 0xE0) * 0x1000 + (b1 - 0x80) * 0x40 + (b2 - 0x80)) :: cs)
            (utf8DecodeGo fuel t2)
        else none
      | _ => none
    else if b0 < 0xF5 then
      match t with
      | b1 :: b2 :: b3 :: t3 =>
        if (if b0 = 0xF0 then decide (0x90 ≤ b1) && decide (b1 < 0xC0)
            else if b0 = 0xF4 then decide (0x80 ≤ b1) && decide (b1 < 0x90)
            else isCont b1) && isCont b2 && isCont b3 then
          Option.map
            (fun cs => ((b0 - 0xF0) * 0x40000 + (b1 - 0x80) * 0x1000 +
                        (b2 - 0x80) * 0x40 + (b3 - 0x80)) :: cs)
            (utf8DecodeGo fuel t3)
        else none
      | _ => none
    else none

/-- Strict UTF-8 decoding of a byte string, as Python's bytes.decode with the
default strict error handler: rejects truncated sequences, stray continuation
bytes, overlong forms, surrogates and code points above 0x10FFFF.  Returns
none where Python raises UnicodeDecodeError. -/
def utf8Decode (l : List Nat) : Option (List Nat) := utf8DecodeGo l.length l

/-- Decode a list of byte strings one by one, failing when any member fails;
models the list comprehension in SpooledStringIO.readlines. -/
def decodeAll : List (List Nat) → Option (List (List Nat))
  | [] => some []
  | l :: ls =>
    match utf8Decode l, decodeAll ls with
    | some t, some ts => some (t :: ts)
    | _, _ => none

/-- Worker for splitLinesPy, carrying the reversed current line. -/
def splitLinesPyGo : List Nat → List Nat → List (List Nat)
  | [], acc => if acc.isEmpty then [] else [acc.reverse]
  | 13 :: 10 :: t, acc => (acc.reverse ++ [13, 10]) :: splitLinesPyGo t []
  | 13 :: t, acc => (acc.reverse ++ [13]) :: splitLinesPyGo t []
  | 10 :: t, acc => (acc.reverse ++ [10]) :: splitLinesPyGo t []
  | b :: t, acc => splitLinesPyGo t (b :: acc)

/-- Python bytes.splitlines(keepends=True): split a byte string at LF, CR and
CRLF, each line keeping its terminator.  Used by StreamRecoder.readlines on
the re-encoded bytes. -/
def splitLinesPy (l : List Nat) : List (List Nat) := splitLinesPyGo l []

/-- Code points Python str.splitlines treats as line boundaries: LF, CR, VT,
FF, FS, GS, RS, NEL, LINE SEPARATOR and PARAGRAPH SEPARATOR. -/
def isLineBreak (c : Nat) : Bool :=
  c = 10 || c = 13 || c = 11 || c = 12 || c = 0x1C || c = 0x1D || c = 0x1E ||
  c = 0x85 || c = 0x2028 || c = 0x2029

/-- Worker for splitLinesStr, carrying the reversed current line. -/
def splitLinesStrGo : List Nat → List Nat → List (List Nat)
  | [], acc => if acc.isEmpty then [] else [acc.reverse]
  | 13 :: 10 :: t, acc => (acc.reverse ++ [13, 10]) :: splitLinesStrGo t []
  | c :: t, acc =>
      if isLineBreak c then (acc.reverse ++ [c]) :: splitLinesStrGo t []
      else splitLinesStrGo t (c :: acc)

/-- Python str.splitlines(keepends=True) on a text value (list of code
points): split at every Unicode line boundary, keeping the terminators; CRLF
counts as one terminator.  Used inside StreamReader.readline. -/
def splitLinesStr (l : List Nat) : List (List Nat) := splitLinesStrGo l []

/-- Append a suffix to the last element of a list of lines (models Python's
lines[-1] += charbuffer in StreamReader.readline). -/
def appendLast : List (List Nat) → List Nat → List (List Nat)
  | [], _ => []
  | [x], s => [x ++ s]
  | x :: xs, s => x :: appendLast xs s

/-- Fuel-driven incremental strict UTF-8 decode, as CPython's utf_8_decode in
non-final mode (the call StreamReader.read makes): returns the decoded code
points, the undecoded remainder, and an ok flag.  A trailing sequence that is
a proper prefix of a valid character is kept in the remainder with ok true; a
byte that cannot start or continue a valid character stops decoding at the
start of the offending sequence with ok false (where CPython raises
UnicodeDecodeError with exc.start at that position).  Fuel equal to the byte
count never runs out; the fuel-exhausted branch only makes the recursion
structural. -/
def decodeIncGo : Nat → List Nat → List Nat × List Nat × Bool
  | _, [] => ([], [], true)
  | 0, l => ([], l, true)
  | fuel + 1, b0 :: t =>
    if b0 < 0x80 then
      let r := decodeIncGo fuel t
      (b0 :: r.1, r.2.1, r.2.2)
    else if b0 < 0xC2 then ([], b0 :: t, false)
    else if b0 < 0xE0 then
      match t with
      | [] => ([], [b0], true)
      | b1 :: t1 =>
        if isCont b1 then
          let r := decodeIncGo fuel t1
          (((b0 - 0xC0) * 0x40 + (b1 - 0x80)) :: r.1, r.2.1, r.2.2)
        else ([], b0 :: t, false)
    else if b0 < 0xF0 then
      match t with
      | [] => ([], [b0], true)
      | b1 :: t1 =>
        if (if b0 = 0xE0 then decide (0xA0 ≤ b1) && decide (b1 < 0xC0)
            else if b0 = 0xED then decide (0x80 ≤ b1) && decide (b1 < 0xA0)
            else isCont b1) then
          match t1 with
          | [] => ([], [b0, b1], true)
          | b2 :: t2 =>
            if isCont b2 then
              let r := decodeIncGo fuel t2
              (((b0 - 0xE0) * 0x1000 + (b1 - 0x80) * 0x40 + (b2 - 0x80)) :: r.1,
               r.2.1, r.2.2)
            else ([], b0 :: t, false)
        else ([], b0 :: t, false)
    else if b0 < 0xF5 then
      match t with
      | [] => ([], [b0], true)
      | b1 :: t1 =>
        if (if b0 = 0xF0 then decide (0x90 ≤ b1) && decide (b1 < 0xC0)
            else if b0 = 0xF4 then decide (0x80 ≤ b1) && decide (b1 < 0x90)
            else isCont b1) then
          match t1 with
          | [] => ([], [b0, b1], true)
          | b2 :: t2 =>
            if isCont b2 then
              match t2 with
              | [] => ([], [b0, b1, b2], true)
              | b3 :: t3 =>
                if isCont b3 then
                  let r := decodeIncGo fuel t3
                  (((b0 - 0xF0) * 0x40000 + (b1 - 0x80) * 0x1000 +
                    (b2 - 0x80) * 0x40 + (b3 - 0x80)) :: r.1, r.2.1, r.2.2)
                else ([], b0 :: t, false)
            else ([], b0 :: t, false)
        else ([], b0 :: t, false)
    else ([], b0 :: t, false)

/-- Incremental strict UTF-8 decode of a byte string (utf_8_decode with
final=False), with fuel instantiated to the byte count. -/
def decodeInc (l : List Nat) : List Nat × List Nat × Bool :=
  decodeIncGo l.length l

/-- File-like object: the shared semantics of BytesIO and TemporaryFile (and
of EncodedFile wrapping either, which passes utf-8 bytes through unchanged).
Holds the byte content and the cursor position. -/
structure FLO where
  data : List Nat
  pos : Nat
  deriving DecidableEq, Repr

/-- Cursor position (models tell). -/
def FLO.tell (f : FLO) : Nat := f.pos

/-- Absolute seek (mode 0); BytesIO allows seeking past the end. -/
def FLO.seek (f : FLO) (p : Nat) : FLO := { f with pos := p }

/-- Read n bytes from the cursor (all remaining bytes when n is negative),
advancing the cursor by the number of bytes actually returned. -/
def FLO.read (f : FLO) (n : Int) : List Nat × FLO :=
  let avail := f.data.drop f.pos
  let out := if n < 0 then avail else avail.take n.toNat
  (out, { f with pos := f.pos + out.length })

/-- Write bytes at the cursor, overwriting in place, zero-filling any gap when
the cursor sits past the end, and advancing the cursor; BytesIO semantics. -/
def FLO.write (f : FLO) (s : List Nat) : FLO :=
  { data := f.data.take f.pos ++ List.replicate (f.pos - f.data.length) 0 ++
      s ++ f.data.drop (f.pos + s.length),
    pos := f.pos + s.length }

/-- Read one line from the cursor: bytes through the next newline, cut at
length bytes when a length is given; advances the cursor accordingly. -/
def FLO.readline (f : FLO) (length : Option Nat) : List Nat × FLO :=
  let line := takeLine (f.data.drop f.pos)
  let out := match length with
    | some n => line.take n
    | none => line
  (out, { f with pos := f.pos + out.length })

/-- Read all remaining lines, advancing the cursor to the end. -/
def FLO.readlines (f : FLO) : List (List Nat) × FLO :=
  (splitLinesB (f.data.drop f.pos),
   { f with pos := f.pos + (f.data.drop f.pos).length })

/-- Native truncate at an absolute size: drops bytes past the size without
moving the cursor (BytesIO.truncate with an argument). -/
def FLO.truncateAt (f : FLO) (size : Nat) : FLO :=
  { f with data := f.data.take size }

/-- Python values a caller can pass to write or compare with ==: a byte
string, a text value, or a value of any other type carrying its type name. -/
inductive PyVal where
  | bytes (s : List Nat)
  | text (s : List Nat)
  | other (typeName : String)
  deriving DecidableEq, Repr

/-- Python type name of a value, as type(s).__name__ yields on Python 3. -/
def pyTypeName : PyVal → String
  | .bytes _ => "bytes"
  | .text _ => "str"
  | .other n => n

/-- Whether the value is a byte string (isinstance(s, six.binary_type)). -/
def PyVal.isBytes : PyVal → Bool
  | .bytes _ => true
  | _ => false

/-- Whether the value is a text value (isinstance(s, six.text_type)). -/
def PyVal.isText : PyVal → Bool
  | .text _ => true
  | _ => false

/-- Exceptions the embedded operations can raise. -/
inductive IOErr where
  | typeError (msg : String)
  | ioError (errno : Nat) (msg : String)
  | unicodeDecodeError
  deriving DecidableEq, Repr

/-- Truncate of SpooledIOBase as it acts on the byte variant's plain buffer:
with no size, truncate at the cursor; with a negative size raise
IOError(EINVAL); otherwise record the cursor, seek to size, truncate the
buffer there, and restore the cursor only when it was strictly before size.
(The text variant repeats the same protocol with the recoder's seeks, see
SpooledString.truncate.) -/
def spooledTruncate (f : FLO) (size : Option Int) : Except IOErr FLO :=
  match size with
  | none => .ok (f.truncateAt f.pos)
  | some sz =>
    if sz < 0 then .error (.ioError 22 "Negative size not allowed")
    else
      let pos := f.tell
      let f1 := f.seek sz.toNat
      let f2 := f1.truncateAt sz.toNat
      .ok (if pos < sz.toNat then f2.seek pos else f2)

/-- State of a SpooledBytesIO instance: the threshold max_size, whether the
buffer has been rolled over to a TemporaryFile, and the buffer itself. -/
structure SpooledBytes where
  max_size : Nat
  rolled : Bool
  buffer : FLO
  deriving DecidableEq, Repr

/-- Freshly constructed SpooledBytesIO(max_size): nothing written, buffer in
memory (the lazily created BytesIO is observationally an empty buffer). -/
def SpooledBytes.fresh (max_size : Nat) : SpooledBytes :=
  ⟨max_size, false, ⟨[], 0⟩⟩

/-- Cursor position: tell delegates to the buffer through _file. -/
def SpooledBytes.tell (st : SpooledBytes) : Nat := st.buffer.tell

/-- Absolute seek, delegated to the buffer. -/
def SpooledBytes.seek (st : SpooledBytes) (p : Nat) : SpooledBytes :=
  { st with buffer := st.buffer.seek p }

/-- Rollover of SpooledBytesIO: when not yet rolled, create a TemporaryFile,
record the cursor, rewind the old buffer, copy all its bytes into the new
file, seek the new file to the recorded cursor, and install it. -/
def SpooledBytes.rollover (st : SpooledBytes) : SpooledBytes :=
  if st.rolled then st
  else
    let tmp : FLO := ⟨[], 0⟩
    let pos := st.buffer.tell
    let b1 := st.buffer.seek 0
    let content := (b1.read (-1)).1
    let tmp1 := tmp.write content
    let tmp2 := tmp1.seek pos
    { st with rolled := true, buffer := tmp2 }

/-- Read n bytes, delegated to the buffer. -/
def SpooledBytes.read (st : SpooledBytes) (n : Int) : List Nat × SpooledBytes :=
  let (out, b) := st.buffer.read n
  (out, { st with buffer := b })

/-- Successful write path of SpooledBytesIO.write: write the bytes, then roll
over when the cursor has reached max_size. -/
def SpooledBytes.writeB (st : SpooledBytes) (s : List Nat) : SpooledBytes :=
  let st1 : SpooledBytes := { st with buffer := st.buffer.write s }
  if st1.max_size ≤ st1.tell then st1.rollover else st1

/-- Write of SpooledBytesIO: reject anything that is not a byte string with a
TypeError naming the expected and actual types, else write and maybe roll. -/
def SpooledBytes.write (st : SpooledBytes) (v : PyVal) :
    Except IOErr SpooledBytes :=
  match v with
  | .bytes s => .ok (st.writeB s)
  | v => .error (.typeError ("bytes expected, got " ++ pyTypeName v))

/-- Sequence of write calls with byte-string arguments, left to right. -/
def SpooledBytes.writeAll (st : SpooledBytes) : List (List Nat) → SpooledBytes
  | [] => st
  | w :: ws => SpooledBytes.writeAll (st.writeB w) ws

/-- Readline, delegated to the buffer. -/
def SpooledBytes.readline (st : SpooledBytes) (length : Option Nat) :
    List Nat × SpooledBytes :=
  let (out, b) := st.buffer.readline length
  (out, { st with buffer := b })

/-- Readlines, delegated to the buffer. -/
def SpooledBytes.readlines (st : SpooledBytes) :
    List (List Nat) × SpooledBytes :=
  let (out, b) := st.buffer.readlines
  (out, { st with buffer := b })

/-- Getvalue: record the cursor, seek to the start, read everything, restore
the cursor; only the value is returned, the state is unchanged. -/
def SpooledBytes.getvalue (st : SpooledBytes) : List Nat :=
  ((st.buffer.seek 0).read (-1)).1

/-- Truncate, the shared SpooledIOBase implementation on this buffer. -/
def SpooledBytes.truncate (st : SpooledBytes) (size : Option Int) :
    Except IOErr SpooledBytes :=
  match spooledTruncate st.buffer size with
  | .ok f => .ok { st with buffer := f }
  | .error e => .error e

/-- State effect of fileno: it calls rollover before returning the OS file
descriptor of the buffer (the descriptor itself is outside the model). -/
def SpooledBytes.fileno (st : SpooledBytes) : SpooledBytes := st.rollover

/-- Elements produced by iterating the stream: the source generator is a
single yield of readline(), so iteration yields exactly one element. -/
def SpooledBytes.iterLines (st : SpooledBytes) :
    List (List Nat) × SpooledBytes :=
  let (l, st1) := st.readline none
  ([l], st1)

/-- State of a codecs.EncodedFile(file, data_encoding=utf-8) object, which is
a codecs.StreamRecoder over the raw file (CPython 3 codecs): the wrapped
BytesIO or TemporaryFile, and the internal buffers of its utf-8 StreamReader:
bytebuffer (bytes read from the stream but not yet decoded), charbuffer
(decoded code points not yet handed out) and linebuffer (lines cached by
readline; the empty list models Python's None, which it is behaviorally
interchangeable with).  The utf-8 StreamWriter holds no state. -/
structure EncFile where
  stream : FLO
  bytebuffer : List Nat
  charbuffer : List Nat
  linebuffer : List (List Nat)
  deriving DecidableEq, Repr

/-- Raw cursor position: StreamRecoder defines no tell, so attribute lookup
falls through __getattr__ to the wrapped stream. -/
def EncFile.tell (ef : EncFile) : Nat := ef.stream.pos

/-- StreamRecoder.seek propagates to reader and writer: the raw stream is
repositioned and StreamReader.seek resets all codec buffers. -/
def EncFile.seek (ef : EncFile) (p : Nat) : EncFile :=
  ⟨ef.stream.seek p, [], [], []⟩

/-- StreamRecoder.write: strict final utf-8 decode of the byte payload (this
is where invalid bytes raise), then the StreamWriter re-encodes the text and
writes the bytes to the raw stream.  Reader buffers are untouched. -/
def EncFile.write (ef : EncFile) (b : List Nat) : Except IOErr EncFile :=
  match utf8Decode b with
  | some cs => .ok { ef with stream := ef.stream.write (utf8Encode cs) }
  | none => .error .unicodeDecodeError

/-- The while loop of codecs.StreamReader.read: until the character buffer
satisfies a nonnegative chars request, read size bytes from the raw stream
(all of them when size is negative), decode bytebuffer plus the new bytes
incrementally, keep the undecoded remainder in bytebuffer and append the new
code points to charbuffer; stop when nothing more arrives.  A decode error is
raised unless firstline is set and the code points decoded before the error
contain more than one line (then they are accepted and the offending bytes
stay in bytebuffer, as CPython's except-branch does).  Fuel bounds the
iterations; the wrapper passes more than the loop can consume. -/
def readerLoop : Nat → Int → Int → Bool → EncFile → Except IOErr EncFile
  | 0, _, _, _, ef => .ok ef
  | fuel + 1, size, chars, firstline, ef =>
    if 0 ≤ chars ∧ chars ≤ (ef.charbuffer.length : Int) then .ok ef
    else
      let (newdata, st1) := ef.stream.read size
      let data := ef.bytebuffer ++ newdata
      if data = [] then .ok { ef with stream := st1 }
      else
        let r := decodeInc data
        if !r.2.2 && (!firstline || decide ((splitLinesStr r.1).length ≤ 1)) then
          .error .unicodeDecodeError
        else
          let ef1 : EncFile := ⟨st1, r.2.1, ef.charbuffer ++ r.1, ef.linebuffer⟩
          if newdata = [] then .ok ef1
          else readerLoop fuel size chars firstline ef1

/-- codecs.StreamReader.read(size, chars, firstline): flush any cached lines
back into the character buffer, default a negative chars to size, run the
read loop, then hand out the whole character buffer (chars negative) or its
first chars code points. -/
def readerRead (ef : EncFile) (size chars0 : Int) (firstline : Bool) :
    Except IOErr (List Nat × EncFile) :=
  let ef0 := if ef.linebuffer.isEmpty then ef
             else ⟨ef.stream, ef.bytebuffer, joinAll ef.linebuffer, []⟩
  let chars := if chars0 < 0 then size else chars0
  match readerLoop (ef0.stream.data.length + 2) size chars firstline ef0 with
  | .error e => .error e
  | .ok ef1 =>
    if chars < 0 then .ok (ef1.charbuffer, { ef1 with charbuffer := [] })
    else .ok (ef1.charbuffer.take chars.toNat,
              { ef1 with charbuffer := ef1.charbuffer.drop chars.toNat })

/-- The while loop of codecs.StreamReader.readline: read readsize characters
(firstline mode), read one extra character after a trailing CR, accumulate,
split at Unicode line boundaries; when several lines appear return the first
and cache the rest (two or more remaining lines go to linebuffer with the
character buffer appended to the last; a single remaining line is pushed back
onto the character buffer); when the single accumulated line carries a
terminator return it; otherwise stop if nothing arrived or a size was given
(returning the next line when size was not given), else double readsize up
to 8000 and continue.  Fuel bounds the iterations; the wrapper passes more
than the loop can consume. -/
def readlineLoop : Nat → Option Nat → Nat → List Nat → EncFile →
    Except IOErr (List Nat × EncFile)
  | 0, _, _, line, ef => .ok (line, ef)
  | fuel + 1, size, readsize, line, ef =>
    match readerRead ef (readsize : Int) (-1) true with
    | .error e => .error e
    | .ok (d0, ef1) =>
      match (if d0.getLast? = some 13 then readerRead ef1 1 1 false
             else .ok ([], ef1)) with
      | .error e => .error e
      | .ok (extra, ef2) =>
        let data := d0 ++ extra
        let line1 := line ++ data
        let lines := splitLinesStr line1
        match lines with
        | l0 :: r1 :: rs =>
          match rs with
          | [] => .ok (l0, { ef2 with charbuffer := r1 ++ ef2.charbuffer })
          | _ :: _ =>
            .ok (l0, { ef2 with linebuffer := appendLast (r1 :: rs) ef2.charbuffer,
                                charbuffer := [] })
        | [l0] =>
          if (match l0.getLast? with
              | some c => isLineBreak c
              | none => false) then
            .ok (l0, { ef2 with linebuffer := [] })
          else if data = [] ∨ size ≠ none then
            .ok (if size = none then l0 else line1, ef2)
          else
            readlineLoop fuel size
              (if readsize < 8000 then readsize * 2 else readsize) line1 ef2
        | [] =>
          if data = [] ∨ size ≠ none then .ok (line1, ef2)
          else
            readlineLoop fuel size
              (if readsize < 8000 then readsize * 2 else readsize) line1 ef2

/-- codecs.StreamReader.readline(size): pop a cached line when the line
buffer is nonempty (reverting to charbuffer mode when exactly one line
remains), else run the readline loop with readsize of size-or-72 (Python's
size or 72, so a zero size also means 72). -/
def readerReadline (ef : EncFile) (size : Option Nat) :
    Except IOErr (List Nat × EncFile) :=
  match ef.linebuffer with
  | l0 :: rest =>
    match rest with
    | [r1] => .ok (l0, { ef with charbuffer := r1, linebuffer := [] })
    | _ => .ok (l0, { ef with linebuffer := rest })
  | [] =>
    let readsize := match size with
      | none => 72
      | some n => if n = 0 then 72 else n
    readlineLoop
      (ef.stream.data.length + ef.bytebuffer.length + ef.charbuffer.length + 8)
      size readsize [] ef

/-- StreamRecoder.read(n): reader.read(n) (so n counts decoded characters),
then re-encode the returned text as utf-8 bytes. -/
def EncFile.readRec (ef : EncFile) (n : Int) : Except IOErr (List Nat × EncFile) :=
  match readerRead ef n (-1) false with
  | .ok (cs, ef1) => .ok (utf8Encode cs, ef1)
  | .error e => .error e

/-- StreamRecoder.readline(size): reader.readline(size), re-encoded. -/
def EncFile.readlineRec (ef : EncFile) (size : Option Nat) :
    Except IOErr (List Nat × EncFile) :=
  match readerReadline ef size with
  | .ok (cs, ef1) => .ok (utf8Encode cs, ef1)
  | .error e => .error e

/-- StreamRecoder.readlines: reader.read() of everything, re-encoded, then
bytes.splitlines(keepends=True). -/
def EncFile.readlinesRec (ef : EncFile) :
    Except IOErr (List (List Nat) × EncFile) :=
  match readerRead ef (-1) (-1) false with
  | .ok (cs, ef1) => .ok (splitLinesPy (utf8Encode cs), ef1)
  | .error e => .error e

/-- State of a SpooledStringIO instance: threshold, rolled flag, and the
EncodedFile buffer; the source property _rolled tests the type of
buffer.stream, mirrored by the rolled field. -/
structure SpooledString where
  max_size : Nat
  rolled : Bool
  buffer : EncFile
  deriving DecidableEq, Repr

/-- Freshly constructed SpooledStringIO(max_size): the lazily created
EncodedFile over an empty BytesIO, with clean reader buffers. -/
def SpooledString.fresh (max_size : Nat) : SpooledString :=
  ⟨max_size, false, ⟨⟨[], 0⟩, [], [], []⟩⟩

/-- Cursor position in raw encoded bytes, delegated to the buffer. -/
def SpooledString.tell (st : SpooledString) : Nat := st.buffer.tell

/-- Absolute seek, delegated to the buffer (which resets reader buffers). -/
def SpooledString.seek (st : SpooledString) (p : Nat) : SpooledString :=
  { st with buffer := st.buffer.seek p }

/-- Rollover of SpooledStringIO: when not yet rolled, create a fresh
EncodedFile over a TemporaryFile, record the raw cursor, seek the old buffer
to 0 (resetting its reader), read everything through its strict utf-8 reader
(which silently leaves a truncated trailing sequence behind and raises on
interior invalid bytes), write that re-encoded payload into the new file, and
seek it to the recorded cursor. -/
def SpooledString.rollover (st : SpooledString) : Except IOErr SpooledString :=
  if st.rolled then .ok st
  else
    let tmp : EncFile := ⟨⟨[], 0⟩, [], [], []⟩
    let pos := st.buffer.tell
    let b1 := st.buffer.seek 0
    match b1.readRec (-1) with
    | .error e => .error e
    | .ok (payload, _) =>
      match tmp.write payload with
      | .error e => .error e
      | .ok tmp1 => .ok { st with rolled := true, buffer := tmp1.seek pos }

/-- Read of SpooledStringIO: buffer.read(n) through the recoder (n counts
decoded characters; a split multi-byte tail stays buffered), then the
returned bytes are strictly decoded. -/
def SpooledString.read (st : SpooledString) (n : Int) :
    Except IOErr (List Nat × SpooledString) :=
  match st.buffer.readRec n with
  | .error e => .error e
  | .ok (bs, b) =>
    match utf8Decode bs with
    | some cs => .ok (cs, { st with buffer := b })
    | none => .error .unicodeDecodeError

/-- Successful type-check path of SpooledStringIO.write: encode the text as
utf-8, write the bytes through the recoder, then roll over when the raw
cursor has reached max_size. -/
def SpooledString.writeS (st : SpooledString) (s : List Nat) :
    Except IOErr SpooledString :=
  match st.buffer.write (utf8Encode s) with
  | .error e => .error e
  | .ok b =>
    let st1 : SpooledString := { st with buffer := b }
    if st1.max_size ≤ st1.tell then st1.rollover else .ok st1

/-- Write of SpooledStringIO: reject anything that is not a text value with a
TypeError naming the expected and actual types, else encode, write, maybe
roll. -/
def SpooledString.write (st : SpooledString) (v : PyVal) :
    Except IOErr SpooledString :=
  match v with
  | .text s => st.writeS s
  | v => .error (.typeError ("str expected, got " ++ pyTypeName v))

/-- Readline of SpooledStringIO: buffer.readline(length) through the recoder
(the length limit counts decoded characters and never splits one), then the
returned bytes are strictly decoded. -/
def SpooledString.readline (st : SpooledString) (length : Option Nat) :
    Except IOErr (List Nat × SpooledString) :=
  match st.buffer.readlineRec length with
  | .error e => .error e
  | .ok (bs, b) =>
    match utf8Decode bs with
    | some cs => .ok (cs, { st with buffer := b })
    | none => .error .unicodeDecodeError

/-- Readlines of SpooledStringIO: the recoder's byte lines (re-encoded full
content split at LF, CR and CRLF), each strictly decoded. -/
def SpooledString.readlines (st : SpooledString) :
    Except IOErr (List (List Nat) × SpooledString) :=
  match st.buffer.readlinesRec with
  | .error e => .error e
  | .ok (ls, b) =>
    match decodeAll ls with
    | some ts => .ok (ts, { st with buffer := b })
    | none => .error .unicodeDecodeError

/-- Getvalue of SpooledStringIO: record the cursor, seek to the start, read
everything (silently dropping a truncated trailing sequence, as the reader
does), restore the cursor; only the value is exposed here. -/
def SpooledString.getvalue (st : SpooledString) : Except IOErr (List Nat) :=
  match (st.seek 0).read (-1) with
  | .ok (cs, _) => .ok cs
  | .error e => .error e

/-- Truncate of SpooledIOBase on the text variant: same protocol as the byte
variant, but the seeks go through the recoder and reset its reader buffers,
while buffer.truncate falls through __getattr__ to the raw stream. -/
def SpooledString.truncate (st : SpooledString) :
    Option Int → Except IOErr SpooledString
  | none =>
    .ok { st with buffer :=
      { st.buffer with stream := st.buffer.stream.truncateAt st.buffer.stream.pos } }
  | some sz =>
    if sz < 0 then .error (.ioError 22 "Negative size not allowed")
    else
      let pos := st.tell
      let st1 := st.seek sz.toNat
      let st2 : SpooledString := { st1 with buffer :=
        { st1.buffer with stream := st1.buffer.stream.truncateAt sz.toNat } }
      .ok (if pos < sz.toNat then st2.seek pos else st2)

/-- State effect of fileno on the text variant: rollover, then return the
descriptor (outside the model). -/
def SpooledString.fileno (st : SpooledString) : Except IOErr SpooledString :=
  st.rollover

/-- A stream of either variant, as SpooledIOBase.__eq__ sees its operands. -/
inductive SpooledStream where
  | ofBytes (s : SpooledBytes)
  | ofText (s : SpooledString)
  deriving DecidableEq, Repr

/-- Getvalue of a stream as a Python value: bytes for the byte variant, text
for the text variant (which may raise on undecodable content). -/
def SpooledStream.getvalue : SpooledStream → Except IOErr PyVal
  | .ofBytes s => .ok (.bytes s.getvalue)
  | .ofText s =>
    match s.getvalue with
    | .ok cs => .ok (.text cs)
    | .error e => .error e

/-- Operand of an equality comparison: another stream, or any non-stream
value (which isinstance(other, SpooledIOBase) rejects). -/
inductive PyAny where
  | stream (s : SpooledStream)
  | notStream
  deriving DecidableEq, Repr

/-- Equality of SpooledIOBase: against another stream compare the getvalue
outputs, against anything else return False. -/
def SpooledStream.eq (a : SpooledStream) (other : PyAny) : Except IOErr Bool :=
  match other with
  | .stream b =>
    match a.getvalue, b.getvalue with
    | .ok va, .ok vb => .ok (decide (va = vb))
    | .error e, _ => .error e
    | .ok _, .error e => .error e
  | .notStream => .ok false

/-- Inequality of SpooledIOBase: the negation of equality. -/
def SpooledStream.ne (a : SpooledStream) (other : PyAny) : Except IOErr Bool :=
  match a.eq other with
  | .ok b => .ok (!b)
  | .error e => .error e

/-- Rollover always results in the rolled state with the very same buffer
content and cursor: when already rolled it is the identity, and when not the
copy protocol reproduces data and position exactly. -/
theorem bytesRollover_eq (st : SpooledBytes) :
    st.rollover = ⟨st.max_size, true, st.buffer⟩ := by
  cases st with
  | mk T r buf =>
    cases buf with
    | mk d p =>
      cases r <;>
        simp [SpooledBytes.rollover, FLO.seek, FLO.read, FLO.write, FLO.tell]

/-- Getvalue of the byte variant returns the entire buffer content. -/
theorem SpooledBytes.getvalue_eq (st : SpooledBytes) :
    st.getvalue = st.buffer.data := by
  simp [SpooledBytes.getvalue, FLO.seek, FLO.read]

/-- A write at the end of the buffer appends the bytes, advances the cursor to
the new end, and sets the rolled flag exactly when the new cursor reaches the
threshold (rollover preserving buffer and cursor). -/
theorem SpooledBytes.writeB_eq (st : SpooledBytes) (s : List Nat)
    (h : st.buffer.pos = st.buffer.data.length) :
    st.writeB s = ⟨st.max_size,
      st.rolled || decide (st.max_size ≤ st.buffer.data.length + s.length),
      ⟨st.buffer.data ++ s, st.buffer.data.length + s.length⟩⟩ := by
  cases st with
  | mk T r buf =>
    cases buf with
    | mk d p =>
      simp only at h
      subst h
      simp only [SpooledBytes.writeB, FLO.write, SpooledBytes.tell, FLO.tell,
        List.take_length, Nat.sub_self, List.replicate_zero, List.nil_append,
        List.drop_eq_nil_of_le (by omega : d.length ≤ d.length + s.length),
        List.append_nil]
      by_cases hT : T ≤ d.length + s.length
      · rw [if_pos hT, bytesRollover_eq]
        simp [hT]
      · rw [if_neg hT]
        simp [hT]

/-- Effect of a sequence of writes starting from a cursor at the end of the
buffer: content is appended in order, the cursor tracks the total length, and
the stream is rolled exactly when it was already rolled or some write pushed
the cursor to the threshold (equivalently, by monotonicity, the sequence is
nonempty and the final length reaches it). -/
theorem SpooledBytes.writeAll_eq (ws : List (List Nat)) (st : SpooledBytes)
    (h : st.buffer.pos = st.buffer.data.length) :
    st.writeAll ws = ⟨st.max_size,
      st.rolled || (decide (ws ≠ []) &&
        decide (st.max_size ≤ st.buffer.data.length + (joinAll ws).length)),
      ⟨st.buffer.data ++ joinAll ws,
       st.buffer.data.length + (joinAll ws).length⟩⟩ := by
  induction ws generalizing st with
  | nil =>
    cases st with
    | mk T r buf =>
      cases buf with
      | mk d p =>
        simp only at h
        subst h
        simp [SpooledBytes.writeAll, joinAll]
  | cons w ws ih =>
    rw [SpooledBytes.writeAll, SpooledBytes.writeB_eq st w h]
    rw [ih _ (by simp)]
    cases st with
    | mk T r buf =>
      cases buf with
      | mk d p =>
        simp only [joinAll, List.length_append, List.append_assoc]
        refine congrArg₂ _ ?_ (by rw [Nat.add_assoc])
        cases ws with
        | nil => simp [joinAll]
        | cons w1 ws1 =>
          by_cases hA : T ≤ d.length + w.length <;>
            by_cases hB : T ≤ d.length + (w.length + (joinAll (w1 :: ws1)).length) <;>
              simp [hA, hB] <;> omega

/-- Encoding a code point below 0x80 yields the single identical byte. -/
theorem utf8EncodeChar_one (b0 : Nat) (h : b0 < 0x80) :
    utf8EncodeChar b0 = [b0] := by
  simp [utf8EncodeChar, h]

/-- Encoding the code point decoded from a well-formed two-byte sequence
reproduces exactly those two bytes. -/
theorem utf8EncodeChar_two (b0 b1 : Nat) (h0 : 0xC2 ≤ b0) (h0' : b0 < 0xE0)
    (h1 : 0x80 ≤ b1) (h1' : b1 < 0xC0) :
    utf8EncodeChar ((b0 - 0xC0) * 0x40 + (b1 - 0x80)) = [b0, b1] := by
  have hlo : ¬ ((b0 - 0xC0) * 0x40 + (b1 - 0x80) < 0x80) := by omega
  have hhi : (b0 - 0xC0) * 0x40 + (b1 - 0x80) < 0x800 := by omega
  rw [utf8EncodeChar, if_neg hlo, if_pos hhi]
  simp only [List.cons.injEq, and_true]
  omega

/-- Encoding the code point decoded from a well-formed three-byte sequence
reproduces exactly those three bytes. -/
theorem utf8EncodeChar_three (b0 b1 b2 : Nat) (h0 : 0xE0 ≤ b0) (h0' : b0 < 0xF0)
    (h1 : 0x80 ≤ b1) (h1' : b1 < 0xC0) (h2 : 0x80 ≤ b2) (h2' : b2 < 0xC0)
    (hE0 : b0 = 0xE0 → 0xA0 ≤ b1) :
    utf8EncodeChar ((b0 - 0xE0) * 0x1000 + (b1 - 0x80) * 0x40 + (b2 - 0x80)) =
      [b0, b1, b2] := by
  have hlo : ¬ ((b0 - 0xE0) * 0x1000 + (b1 - 0x80) * 0x40 + (b2 - 0x80) < 0x80) := by
    by_cases hb : b0 = 0xE0
    · have := hE0 hb
      omega
    · omega
  have hlo' : ¬ ((b0 - 0xE0) * 0x1000 + (b1 - 0x80) * 0x40 + (b2 - 0x80) < 0x800) := by
    by_cases hb : b0 = 0xE0
    · have := hE0 hb
      omega
    · omega
  have hhi : (b0 - 0xE0) * 0x1000 + (b1 - 0x80) * 0x40 + (b2 - 0x80) < 0x10000 := by
    omega
  rw [utf8EncodeChar, if_neg hlo, if_neg hlo', if_pos hhi]
  simp only [List.cons.injEq, and_true]
  omega

/-- Encoding the code point decoded from a well-formed four-byte sequence
reproduces exactly those four bytes. -/
theorem utf8EncodeChar_four (b0 b1 b2 b3 : Nat) (h0 : 0xF0 ≤ b0) (h0' : b0 < 0xF5)
    (h1 : 0x80 ≤ b1) (h1' : b1 < 0xC0) (h2 : 0x80 ≤ b2) (h2' : b2 < 0xC0)
    (h3 : 0x80 ≤ b3) (h3' : b3 < 0xC0) (hF0 : b0 = 0xF0 → 0x90 ≤ b1) :
    utf8EncodeChar ((b0 - 0xF0) * 0x40000 + (b1 - 0x80) * 0x1000 +
      (b2 - 0x80) * 0x40 + (b3 - 0x80)) = [b0, b1, b2, b3] := by
  have key : ¬ ((b0 - 0xF0) * 0x40000 + (b1 - 0x80) * 0x1000 +
      (b2 - 0x80) * 0x40 + (b3 - 0x80) < 0x10000) := by
    by_cases hb : b0 = 0xF0
    · have := hF0 hb
      omega
    · omega
  have hlo : ¬ ((b0 - 0xF0) * 0x40000 + (b1 - 0x80) * 0x1000 +
      (b2 - 0x80) * 0x40 + (b3 - 0x80) < 0x80) := by omega
  have hlo' : ¬ ((b0 - 0xF0) * 0x40000 + (b1 - 0x80) * 0x1000 +
      (b2 - 0x80) * 0x40 + (b3 - 0x80) < 0x800) := by omega
  rw [utf8EncodeChar, if_neg hlo, if_neg hlo', if_neg key]
  simp only [List.cons.injEq, and_true]
  omega

/-- Soundness of strict UTF-8 decoding: whenever decoding a byte string
succeeds, re-encoding the decoded text reproduces the byte string exactly.
Hence every successfully decoded value is the complete decoding of the bytes
consumed, never a partial fragment. -/
theorem utf8DecodeGo_sound (fuel : Nat) :
    ∀ (bs cs : List Nat), utf8DecodeGo fuel bs = some cs → utf8Encode cs = bs := by
  induction fuel with
  | zero =>
    intro bs cs h
    cases bs with
    | nil =>
      rw [utf8DecodeGo] at h
      cases h
      rfl
    | cons b t =>
      rw [utf8DecodeGo] at h
      cases h
  | succ fuel ih =>
    intro bs cs h
    cases bs with
    | nil =>
      rw [utf8DecodeGo] at h
      cases h
      rfl
    | cons b0 t =>
      simp only [utf8DecodeGo] at h
      by_cases c1 : b0 < 0x80
      · rw [if_pos c1] at h
        cases hd : utf8DecodeGo fuel t with
        | none => rw [hd, Option.map_none'] at h; cases h
        | some cs1 =>
          rw [hd, Option.map_some'] at h
          cases h
          simp only [utf8Encode, utf8EncodeChar_one b0 c1]
          rw [ih t cs1 hd]
          rfl
      · by_cases c2 : b0 < 0xC2
        · rw [if_neg c1, if_pos c2] at h
          cases h
        · by_cases c3 : b0 < 0xE0
          · rw [if_neg c1, if_neg c2, if_pos c3] at h
            cases t with
            | nil => cases h
            | cons b1 t1 =>
              simp only [] at h
              by_cases hc : isCont b1 = true
              · rw [if_pos hc] at h
                cases hd : utf8DecodeGo fuel t1 with
                | none => rw [hd, Option.map_none'] at h; cases h
                | some cs1 =>
                  rw [hd, Option.map_some'] at h
                  cases h
                  have hb1 : 0x80 ≤ b1 ∧ b1 < 0xC0 := by
                    simpa [isCont] using hc
                  simp only [utf8Encode,
                    utf8EncodeChar_two b0 b1 (by omega) c3 hb1.1 hb1.2]
                  rw [ih t1 cs1 hd]
                  rfl
              · rw [if_neg hc] at h
                cases h
          · by_cases c4 : b0 < 0xF0
            · rw [if_neg c1, if_neg c2, if_neg c3, if_pos c4] at h
              cases t with
              | nil => cases h
              | cons b1 t' =>
                cases t' with
                | nil => cases h
                | cons b2 t2 =>
                  simp only [] at h
                  by_cases hcc : ((if b0 = 0xE0 then
                        decide (0xA0 ≤ b1) && decide (b1 < 0xC0)
                      else if b0 = 0xED then
                        decide (0x80 ≤ b1) && decide (b1 < 0xA0)
                      else isCont b1) && isCont b2) = true
                  · rw [if_pos hcc] at h
                    rw [Bool.and_eq_true] at hcc
                    obtain ⟨hA, hB⟩ := hcc
                    cases hd : utf8DecodeGo fuel t2 with
                    | none => rw [hd, Option.map_none'] at h; cases h
                    | some cs1 =>
                      rw [hd, Option.map_some'] at h
                      cases h
                      have hb2 : 0x80 ≤ b2 ∧ b2 < 0xC0 := by
                        simpa [isCont] using hB
                      have hb1 : 0x80 ≤ b1 ∧ b1 < 0xC0 ∧ (b0 = 0xE0 → 0xA0 ≤ b1) := by
                        by_cases hb : b0 = 0xE0
                        · rw [if_pos hb] at hA
                          simp at hA
                          exact ⟨by omega, hA.2, fun _ => hA.1⟩
                        · by_cases hb' : b0 = 0xED
                          · rw [if_neg hb, if_pos hb'] at hA
                            simp at hA
                            exact ⟨hA.1, by omega, fun hx => absurd hx hb⟩
                          · rw [if_neg hb, if_neg hb'] at hA
                            simp [isCont] at hA
                            exact ⟨hA.1, hA.2, fun hx => absurd hx hb⟩
                      simp only [utf8Encode,
                        utf8EncodeChar_three b0 b1 b2 (by omega) c4
                          hb1.1 hb1.2.1 hb2.1 hb2.2 hb1.2.2]
                      rw [ih t2 cs1 hd]
                      rfl
                  · rw [if_neg hcc] at h
                    cases h
            · by_cases c5 : b0 < 0xF5
              · rw [if_neg c1, if_neg c2, if_neg c3, if_neg c4, if_pos c5] at h
                cases t with
                | nil => cases h
                | cons b1 t' =>
                  cases t' with
                  | nil => cases h
                  | cons b2 t'' =>
                    cases t'' with
                    | nil => cases h
                    | cons b3 t3 =>
                      simp only [] at h
                      by_cases hcc : ((if b0 = 0xF0 then
                            decide (0x90 ≤ b1) && decide (b1 < 0xC0)
                          else if b0 = 0xF4 then
                            decide (0x80 ≤ b1) && decide (b1 < 0x90)
                          else isCont b1) && isCont b2 && isCont b3) = true
                      · rw [if_pos hcc] at h
                        rw [Bool.and_eq_true, Bool.and_eq_true] at hcc
                        obtain ⟨⟨hA, hB⟩, hC⟩ := hcc
                        cases hd : utf8DecodeGo fuel t3 with
                        | none => rw [hd, Option.map_none'] at h; cases h
                        | some cs1 =>
                          rw [hd, Option.map_some'] at h
                          cases h
                          have hb2 : 0x80 ≤ b2 ∧ b2 < 0xC0 := by
                            simpa [isCont] using hB
                          have hb3 : 0x80 ≤ b3 ∧ b3 < 0xC0 := by
                            simpa [isCont] using hC
                          have hb1 : 0x80 ≤ b1 ∧ b1 < 0xC0 ∧ (b0 = 0xF0 → 0x90 ≤ b1) := by
                            by_cases hb : b0 = 0xF0
                            · rw [if_pos hb] at hA
                              simp at hA
                              exact ⟨by omega, hA.2, fun _ => hA.1⟩
                            · by_cases hb' : b0 = 0xF4
                              · rw [if_neg hb, if_pos hb'] at hA
                                simp at hA
                                exact ⟨hA.1, by omega, fun hx => absurd hx hb⟩
                              · rw [if_neg hb, if_neg hb'] at hA
                                simp [isCont] at hA
                                exact ⟨hA.1, hA.2, fun hx => absurd hx hb⟩
                          simp only [utf8Encode,
                            utf8EncodeChar_four b0 b1 b2 b3 (by omega) c5
                              hb1.1 hb1.2.1 hb2.1 hb2.2 hb3.1 hb3.2 hb1.2.2]
                          rw [ih t3 cs1 hd]
                          rfl
                      · rw [if_neg hcc] at h
                        cases h
              · rw [if_neg c1, if_neg c2, if_neg c3, if_neg c4, if_neg c5] at h
                cases h

/-- Soundness of utf8Decode, by soundness of the fuel-driven worker. -/
theorem utf8Decode_sound (bs cs : List Nat) (h : utf8Decode bs = some cs) :
    utf8Encode cs = bs :=
  utf8DecodeGo_sound bs.length bs cs h

/-- Soundness of decoding a list of byte lines: on success, re-encoding each
decoded line reproduces the byte lines exactly. -/
theorem decodeAll_sound (ls : List (List Nat)) (ts : List (List Nat))
    (h : decodeAll ls = some ts) : ts.map utf8Encode = ls := by
  induction ls generalizing ts with
  | nil =>
    rw [decodeAll] at h
    cases h
    rfl
  | cons l ls ih =>
    rw [decodeAll] at h
    cases hd : utf8Decode l with
    | none => rw [hd] at h; cases h
    | some t =>
      rw [hd] at h
      cases hr : decodeAll ls with
      | none => rw [hr] at h; cases h
      | some ts1 =>
        rw [hr] at h
        cases h
        simp only [List.map_cons, ih ts1 hr, utf8Decode_sound l t hd]


/-- On fully valid utf-8 input the incremental decoder agrees with the strict
final decoder: everything decodes, nothing is left pending, no error. -/
theorem decodeInc_of_valid (fuel : Nat) :
    ∀ (bs cs : List Nat), utf8DecodeGo fuel bs = some cs →
      decodeIncGo fuel bs = (cs, [], true) := by
  induction fuel with
  | zero =>
    intro bs cs h
    cases bs with
    | nil =>
      rw [utf8DecodeGo] at h
      cases h
      rfl
    | cons b t =>
      rw [utf8DecodeGo] at h
      cases h
  | succ fuel ih =>
    intro bs cs h
    cases bs with
    | nil =>
      rw [utf8DecodeGo] at h
      cases h
      rfl
    | cons b0 t =>
      simp only [utf8DecodeGo] at h
      by_cases c1 : b0 < 0x80
      · rw [if_pos c1] at h
        cases hd : utf8DecodeGo fuel t with
        | none => rw [hd, Option.map_none'] at h; cases h
        | some cs1 =>
          rw [hd, Option.map_some'] at h
          cases h
          simp [decodeIncGo, if_pos c1, ih t cs1 hd]
      · by_cases c2 : b0 < 0xC2
        · rw [if_neg c1, if_pos c2] at h
          cases h
        · by_cases c3 : b0 < 0xE0
          · rw [if_neg c1, if_neg c2, if_pos c3] at h
            cases t with
            | nil => cases h
            | cons b1 t1 =>
              simp only [] at h
              by_cases hc : isCont b1 = true
              · rw [if_pos hc] at h
                cases hd : utf8DecodeGo fuel t1 with
                | none => rw [hd, Option.map_none'] at h; cases h
                | some cs1 =>
                  rw [hd, Option.map_some'] at h
                  cases h
                  simp [decodeIncGo, if_neg c1, if_neg c2, if_pos c3,
                    if_pos hc, ih t1 cs1 hd]
              · rw [if_neg hc] at h
                cases h
          · by_cases c4 : b0 < 0xF0
            · rw [if_neg c1, if_neg c2, if_neg c3, if_pos c4] at h
              cases t with
              | nil => cases h
              | cons b1 t' =>
                cases t' with
                | nil => cases h
                | cons b2 t2 =>
                  simp only [] at h
                  by_cases hcc : ((if b0 = 0xE0 then
                        decide (0xA0 ≤ b1) && decide (b1 < 0xC0)
                      else if b0 = 0xED then
                        decide (0x80 ≤ b1) && decide (b1 < 0xA0)
                      else isCont b1) && isCont b2) = true
                  · rw [if_pos hcc] at h
                    rw [Bool.and_eq_true] at hcc
                    obtain ⟨hA, hB⟩ := hcc
                    cases hd : utf8DecodeGo fuel t2 with
                    | none => rw [hd, Option.map_none'] at h; cases h
                    | some cs1 =>
                      rw [hd, Option.map_some'] at h
                      cases h
                      simp [decodeIncGo, if_neg c1, if_neg c2, if_neg c3,
                        if_pos c4, if_pos hA, if_pos hB, ih t2 cs1 hd]
                      by_cases hb : b0 = 0xE0
                      · simpa [hb] using hA
                      · by_cases hb' : b0 = 0xED
                        · simpa [hb, hb'] using hA
                        · simpa [hb, hb'] using hA
                  · rw [if_neg hcc] at h
                    cases h
            · by_cases c5 : b0 < 0xF5
              · rw [if_neg c1, if_neg c2, if_neg c3, if_neg c4, if_pos c5] at h
                cases t with
                | nil => cases h
                | cons b1 t' =>
                  cases t' with
                  | nil => cases h
                  | cons b2 t'' =>
                    cases t'' with
                    | nil => cases h
                    | cons b3 t3 =>
                      simp only [] at h
                      by_cases hcc : ((if b0 = 0xF0 then
                            decide (0x90 ≤ b1) && decide (b1 < 0xC0)
                          else if b0 = 0xF4 then
                            decide (0x80 ≤ b1) && decide (b1 < 0x90)
                          else isCont b1) && isCont b2 && isCont b3) = true
                      · rw [if_pos hcc] at h
                        rw [Bool.and_eq_true, Bool.and_eq_true] at hcc
                        obtain ⟨⟨hA, hB⟩, hC⟩ := hcc
                        cases hd : utf8DecodeGo fuel t3 with
                        | none => rw [hd, Option.map_none'] at h; cases h
                        | some cs1 =>
                          rw [hd, Option.map_some'] at h
                          cases h
                          simp [decodeIncGo, if_neg c1, if_neg c2, if_neg c3,
                            if_neg c4, if_pos c5, if_pos hA, if_pos hB,
                            if_pos hC, ih t3 cs1 hd]
                          by_cases hb : b0 = 0xF0
                          · simpa [hb] using hA
                          · by_cases hb' : b0 = 0xF4
                            · simpa [hb, hb'] using hA
                            · simpa [hb, hb'] using hA
                      · rw [if_neg hcc] at h
                        cases h
              · rw [if_neg c1, if_neg c2, if_neg c3, if_neg c4, if_neg c5] at h
                cases h

/-- The reader loop on a freshly reset reader over fully valid utf-8 bytes
performs one decoding gulp and one empty read, ending with everything in the
character buffer and the stream at its end. -/
theorem readerLoop_valid (fuel : Nat) (d cs : List Nat)
    (h : decodeInc d = (cs, [], true)) :
    readerLoop (fuel + 2) (-1) (-1) false ⟨⟨d, 0⟩, [], [], []⟩ =
      .ok ⟨⟨d, d.length⟩, [], cs, []⟩ := by
  cases d with
  | nil =>
    have hcs : cs = [] := by
      simp only [decodeInc, List.length_nil, decodeIncGo, Prod.mk.injEq] at h
      exact h.1.symm
    subst hcs
    rfl
  | cons b t =>
    simp [readerLoop, FLO.read, h]

/-- Reading everything through a freshly reset encoded reader over valid
utf-8 content returns exactly its code points and leaves a clean reader at
the end of the stream. -/
theorem readerReadAll_valid (d cs : List Nat) (h : utf8Decode d = some cs) :
    readerRead ⟨⟨d, 0⟩, [], [], []⟩ (-1) (-1) false =
      .ok (cs, ⟨⟨d, d.length⟩, [], [], []⟩) := by
  have h2 : decodeInc d = (cs, [], true) := decodeInc_of_valid d.length d cs h
  simp [readerRead, readerLoop_valid d.length d cs h2]

/-- A successful rollover of the text variant always leaves the stream in the
rolled state (the new buffer is the disk-backed EncodedFile). -/
theorem stringRollover_ok_rolled (st r : SpooledString)
    (h : st.rollover = .ok r) : r.rolled = true := by
  rw [SpooledString.rollover] at h
  by_cases hb : st.rolled = true
  · rw [if_pos hb] at h
    cases h
    exact hb
  · rw [if_neg hb] at h
    simp only [] at h
    cases h1 : (st.buffer.seek 0).readRec (-1) with
    | error e =>
      rw [h1] at h
      cases h
    | ok p =>
      obtain ⟨payload, b⟩ := p
      rw [h1] at h
      simp only [] at h
      cases h2 : (⟨⟨[], 0⟩, [], [], []⟩ : EncFile).write payload with
      | error e =>
        rw [h2] at h
        cases h
      | ok tmp1 =>
        rw [h2] at h
        cases h
        rfl

/-- Rollover of the text variant from an in-memory state whose raw bytes are
valid utf-8: the copy through the strict reader re-encodes to exactly the
original bytes and the recorded raw cursor is restored, whatever the reader
buffers held (the initial seek to 0 resets them). -/
theorem stringRollover_valid (st : SpooledString) (cs : List Nat)
    (hr : st.rolled = false) (hv : utf8Decode st.buffer.stream.data = some cs) :
    st.rollover = .ok ⟨st.max_size, true,
      ⟨⟨st.buffer.stream.data, st.buffer.stream.pos⟩, [], [], []⟩⟩ := by
  have henc : utf8Encode cs = st.buffer.stream.data := utf8Decode_sound _ _ hv
  have hseek : st.buffer.seek 0 = ⟨⟨st.buffer.stream.data, 0⟩, [], [], []⟩ := by
    simp [EncFile.seek, FLO.seek]
  rw [SpooledString.rollover, if_neg (by simp [hr])]
  simp only []
  rw [hseek]
  simp only [EncFile.readRec]
  rw [readerReadAll_valid _ _ hv]
  simp only [EncFile.write, henc, hv, EncFile.seek, FLO.seek, FLO.write,
    EncFile.tell, FLO.tell]
  simp [SpooledString.tell, EncFile.tell, FLO.tell]

/-- Concatenating the joined chunks of two lists of chunks. -/
theorem joinAll_append (a b : List (List Nat)) :
    joinAll (a ++ b) = joinAll a ++ joinAll b := by
  induction a with
  | nil => rfl
  | cons l ls ih => simp [joinAll, ih]

/-- C1 (amended): rollover on an in-memory byte stream migrates to disk with
all previously written bytes present in order and tell unchanged; on an
in-memory text stream the same holds provided the buffered raw bytes are
valid utf-8 — always the case when content was produced only by whole-value
writes.  (A buffer left with a truncated multi-byte tail, reachable by
truncating mid-character, instead migrates with the tail silently dropped:
see the counterexample.) -/
theorem c1_rollover_preserves_content_and_cursor :
    (∀ st : SpooledBytes, st.rolled = false →
      st.rollover.rolled = true ∧
      st.rollover.buffer.data = st.buffer.data ∧
      st.rollover.tell = st.tell) ∧
    (∀ (st : SpooledString) (cs : List Nat), st.rolled = false →
      utf8Decode st.buffer.stream.data = some cs →
      ∃ r, st.rollover = .ok r ∧ r.rolled = true ∧
        r.buffer.stream.data = st.buffer.stream.data ∧ r.tell = st.tell) := by
  constructor
  · intro st _
    rw [bytesRollover_eq]
    exact ⟨rfl, rfl, rfl⟩
  · intro st cs hr hv
    exact ⟨_, stringRollover_valid st cs hr hv, rfl, rfl, rfl⟩

/-- Counterexample to C1 as stated: writing one two-byte character and then
truncating to one byte leaves an in-memory text stream whose buffer holds the
lone lead byte 0xC3; its rollover copies through the strict utf-8 reader,
which silently drops the truncated tail, so the migrated backend is empty
and the previously written byte is not present. -/
theorem c1_counterexample :
    (SpooledString.fresh 1000).writeS [233] =
      .ok (SpooledString.mk 1000 false ⟨⟨[195, 169], 2⟩, [], [], []⟩) ∧
    (SpooledString.mk 1000 false ⟨⟨[195, 169], 2⟩, [], [], []⟩).truncate
        (some 1) =
      .ok (SpooledString.mk 1000 false ⟨⟨[195], 1⟩, [], [], []⟩) ∧
    (SpooledString.mk 1000 false ⟨⟨[195], 1⟩, [], [], []⟩).rolled = false ∧
    (SpooledString.mk 1000 false ⟨⟨[195], 1⟩, [], [], []⟩).rollover =
      .ok (SpooledString.mk 1000 true ⟨⟨[], 1⟩, [], [], []⟩) ∧
    ([] : List Nat) ≠ [195] :=
  ⟨rfl, rfl, rfl, rfl, by decide⟩

/-- Witness for C1 at a concrete in-memory byte stream and a concrete
in-memory text stream with valid utf-8 content and the cursor at offset 1. -/
theorem c1_witness :
    (SpooledBytes.mk 10 false ⟨[1, 2], 1⟩).rolled = false ∧
    ((SpooledBytes.mk 10 false ⟨[1, 2], 1⟩).rollover.rolled = true ∧
     (SpooledBytes.mk 10 false ⟨[1, 2], 1⟩).rollover.buffer.data = [1, 2] ∧
     (SpooledBytes.mk 10 false ⟨[1, 2], 1⟩).rollover.tell = 1) ∧
    (SpooledString.mk 9 false ⟨⟨[104, 195, 169], 1⟩, [], [], []⟩).rolled = false ∧
    utf8Decode [104, 195, 169] = some [104, 233] ∧
    (∃ r, (SpooledString.mk 9 false
        ⟨⟨[104, 195, 169], 1⟩, [], [], []⟩).rollover = .ok r ∧
      r.rolled = true ∧ r.buffer.stream.data = [104, 195, 169] ∧ r.tell = 1) :=
  ⟨rfl, c1_rollover_preserves_content_and_cursor.1 _ rfl, rfl, rfl,
   c1_rollover_preserves_content_and_cursor.2 _ [104, 233] rfl rfl⟩

/-- C5: rollover is idempotent on both variants: when the backend is already
on disk it is a no-op, and a rollover immediately following a successful one
is the identity on its result (same content and cursor as calling it once). -/
theorem c5_rollover_idempotent :
    (∀ st : SpooledBytes, st.rolled = true → st.rollover = st) ∧
    (∀ st : SpooledBytes, st.rollover.rollover = st.rollover) ∧
    (∀ st : SpooledString, st.rolled = true → st.rollover = .ok st) ∧
    (∀ (st r : SpooledString), st.rollover = .ok r → r.rollover = .ok r) := by
  refine ⟨fun st h => ?_, fun st => ?_, fun st h => ?_, fun st r h => ?_⟩
  · rw [SpooledBytes.rollover, if_pos h]
  · rw [bytesRollover_eq st, bytesRollover_eq]
  · rw [SpooledString.rollover, if_pos h]
  · rw [SpooledString.rollover, if_pos (stringRollover_ok_rolled st r h)]

/-- Witness for C5 at concrete already-rolled streams of both variants. -/
theorem c5_witness :
    (SpooledBytes.mk 5 true ⟨[7], 0⟩).rolled = true ∧
    (SpooledBytes.mk 5 true ⟨[7], 0⟩).rollover = SpooledBytes.mk 5 true ⟨[7], 0⟩ ∧
    (SpooledString.mk 5 true ⟨⟨[7], 0⟩, [], [], []⟩).rolled = true ∧
    (SpooledString.mk 5 true ⟨⟨[7], 0⟩, [], [], []⟩).rollover =
      .ok (SpooledString.mk 5 true ⟨⟨[7], 0⟩, [], [], []⟩) :=
  ⟨rfl, c5_rollover_idempotent.1 _ rfl, rfl, c5_rollover_idempotent.2.2.1 _ rfl⟩

/-- C2: whenever the cumulative written length of a sequence of writes on a
fresh stream reaches or exceeds the (positive) threshold, the stream is
rolled by the time the triggering write returns (any qualifying prefix is an
instance of the quantifier) and getvalue still returns exactly everything
written; and the concrete threshold-10 scenario writing 12345 then 67890X. -/
theorem c2_threshold_triggers_rollover :
    (∀ (T : Nat) (ws : List (List Nat)), 1 ≤ T → T ≤ (joinAll ws).length →
      ((SpooledBytes.fresh T).writeAll ws).rolled = true ∧
      ((SpooledBytes.fresh T).writeAll ws).getvalue = joinAll ws) ∧
    (SpooledBytes.fresh 10).write (.bytes [49, 50, 51, 52, 53]) =
      .ok (SpooledBytes.mk 10 false ⟨[49, 50, 51, 52, 53], 5⟩) ∧
    (SpooledBytes.mk 10 false ⟨[49, 50, 51, 52, 53], 5⟩).rolled = false ∧
    (SpooledBytes.mk 10 false ⟨[49, 50, 51, 52, 53], 5⟩).getvalue =
      [49, 50, 51, 52, 53] ∧
    (SpooledBytes.mk 10 false ⟨[49, 50, 51, 52, 53], 5⟩).write
        (.bytes [54, 55, 56, 57, 48, 88]) =
      .ok (SpooledBytes.mk 10 true
        ⟨[49, 50, 51, 52, 53, 54, 55, 56, 57, 48, 88], 11⟩) ∧
    (SpooledBytes.mk 10 true
        ⟨[49, 50, 51, 52, 53, 54, 55, 56, 57, 48, 88], 11⟩).rolled = true ∧
    (SpooledBytes.mk 10 true
        ⟨[49, 50, 51, 52, 53, 54, 55, 56, 57, 48, 88], 11⟩).getvalue =
      [49, 50, 51, 52, 53, 54, 55, 56, 57, 48, 88] := by
  refine ⟨fun T ws h1 h2 => ?_, rfl, rfl, rfl, rfl, rfl, rfl⟩
  rw [SpooledBytes.writeAll_eq ws _ rfl]
  refine ⟨?_, by rw [SpooledBytes.getvalue_eq]; simp [SpooledBytes.fresh]⟩
  cases ws with
  | nil => simp [joinAll] at h2; omega
  | cons w ws1 =>
    simp only [SpooledBytes.fresh] at h2 ⊢
    simp [h2]

/-- Witness for C2 at threshold 1 with a single one-byte write. -/
theorem c2_witness :
    1 ≤ 1 ∧ 1 ≤ (joinAll [[7]]).length ∧
    (((SpooledBytes.fresh 1).writeAll [[7]]).rolled = true ∧
     ((SpooledBytes.fresh 1).writeAll [[7]]).getvalue = joinAll [[7]]) :=
  ⟨le_refl 1, by decide, c2_threshold_triggers_rollover.1 1 [[7]] (le_refl 1) (by decide)⟩

/-- C3: for every sequence of writes on a fresh stream whose total length
stays below the threshold, the rolled flag is false after every prefix of the
sequence and getvalue returns exactly the bytes written. -/
theorem c3_below_threshold_never_rolls :
    ∀ (T : Nat) (ws ws1 ws2 : List (List Nat)), ws = ws1 ++ ws2 →
      (joinAll ws).length < T →
      ((SpooledBytes.fresh T).writeAll ws1).rolled = false ∧
      ((SpooledBytes.fresh T).writeAll ws).getvalue = joinAll ws := by
  intro T ws ws1 ws2 hsplit hlt
  constructor
  · rw [SpooledBytes.writeAll_eq ws1 _ rfl]
    have hle : (joinAll ws1).length ≤ (joinAll ws).length := by
      rw [hsplit, joinAll_append]
      simp
    simp only [SpooledBytes.fresh]
    have hnot : ¬ (T ≤ 0 + (joinAll ws1).length) := by omega
    simp [hnot]
    exact fun _ => lt_of_le_of_lt hle hlt
  · rw [SpooledBytes.writeAll_eq ws _ rfl, SpooledBytes.getvalue_eq]
    simp [SpooledBytes.fresh]

/-- Witness for C3: threshold 5, two one-byte writes, checked after the first
write (the prefix) and at the end. -/
theorem c3_witness :
    [[1], [2]] = [[1]] ++ [[2]] ∧ (joinAll [[1], [2]]).length < 5 ∧
    (((SpooledBytes.fresh 5).writeAll [[1]]).rolled = false ∧
     ((SpooledBytes.fresh 5).writeAll [[1], [2]]).getvalue = joinAll [[1], [2]]) :=
  ⟨rfl, by decide, c3_below_threshold_never_rolls 5 [[1], [2]] [[1]] [[2]] rfl (by decide)⟩

/-- C4: on the text variant every value returned by read(n), readline or
readlines is a complete, validly decoded utf-8 text value: whatever byte
payload the encoded backend hands over, the returned text is its full strict
decoding and re-encodes to it exactly, so no partially decoded fragment is
ever exposed for any read size n.  The reader counts sizes in decoded
characters and buffers a split multi-byte tail rather than cutting it: the
scenarios show the threshold-1000 round trip of h-e-acute-l-l-o, a read of
size 2 crossing the two-byte character and returning it whole, and a
readline limited to 1 character returning a whole two-byte character. -/
theorem c4_text_reads_completely_decoded :
    (∀ (st : SpooledString) (n : Int) (bs : List Nat) (b : EncFile)
        (s : List Nat) (st1 : SpooledString),
        st.buffer.readRec n = .ok (bs, b) → st.read n = .ok (s, st1) →
        utf8Encode s = bs ∧ utf8Decode bs = some s) ∧
    (∀ (st : SpooledString) (len : Option Nat) (bs : List Nat) (b : EncFile)
        (s : List Nat) (st1 : SpooledString),
        st.buffer.readlineRec len = .ok (bs, b) →
        st.readline len = .ok (s, st1) →
        utf8Encode s = bs ∧ utf8Decode bs = some s) ∧
    (∀ (st : SpooledString) (ls : List (List Nat)) (b : EncFile)
        (ts : List (List Nat)) (st1 : SpooledString),
        st.buffer.readlinesRec = .ok (ls, b) → st.readlines = .ok (ts, st1) →
        ts.map utf8Encode = ls ∧ decodeAll ls = some ts) ∧
    (SpooledString.fresh 1000).write (.text [104, 233, 108, 108, 111]) =
      .ok (SpooledString.mk 1000 false
        ⟨⟨[104, 195, 169, 108, 108, 111], 6⟩, [], [], []⟩) ∧
    (SpooledString.mk 1000 false
        ⟨⟨[104, 195, 169, 108, 108, 111], 6⟩, [], [], []⟩).rolled = false ∧
    ((SpooledString.mk 1000 false
        ⟨⟨[104, 195, 169, 108, 108, 111], 6⟩, [], [], []⟩).seek 0).read (-1) =
      .ok ([104, 233, 108, 108, 111],
        SpooledString.mk 1000 false
          ⟨⟨[104, 195, 169, 108, 108, 111], 6⟩, [], [], []⟩) ∧
    (SpooledString.mk 1000 false
        ⟨⟨[104, 195, 169, 108, 108, 111], 0⟩, [], [], []⟩).read 2 =
      .ok ([104, 233],
        SpooledString.mk 1000 false
          ⟨⟨[104, 195, 169, 108, 108, 111], 4⟩, [], [108], []⟩) ∧
    (SpooledString.mk 1000 false
        ⟨⟨[195, 169, 10], 0⟩, [], [], []⟩).readline (some 1) =
      .ok ([233],
        SpooledString.mk 1000 false ⟨⟨[195, 169, 10], 2⟩, [], [], []⟩) := by
  refine ⟨fun st n bs b s st1 hrec hread => ?_,
    fun st len bs b s st1 hrec hread => ?_,
    fun st ls b ts st1 hrec hread => ?_, rfl, rfl, rfl, rfl, rfl⟩
  · simp only [SpooledString.read] at hread
    rw [hrec] at hread
    simp only [] at hread
    cases hd : utf8Decode bs with
    | none => rw [hd] at hread; cases hread
    | some cs =>
      rw [hd] at hread
      cases hread
      exact ⟨utf8Decode_sound _ _ hd, rfl⟩
  · simp only [SpooledString.readline] at hread
    rw [hrec] at hread
    simp only [] at hread
    cases hd : utf8Decode bs with
    | none => rw [hd] at hread; cases hread
    | some cs =>
      rw [hd] at hread
      cases hread
      exact ⟨utf8Decode_sound _ _ hd, rfl⟩
  · simp only [SpooledString.readlines] at hread
    rw [hrec] at hread
    simp only [] at hread
    cases hd : decodeAll ls with
    | none => rw [hd] at hread; cases hread
    | some ts1 =>
      rw [hd] at hread
      cases hread
      exact ⟨decodeAll_sound _ _ hd, rfl⟩

/-- Witness for C4: a size-2 read over one ascii and one two-byte character
hands over the re-encoded payload of the two complete characters, and the
returned text re-encodes to it exactly. -/
theorem c4_witness :
    (SpooledString.mk 1000 false
        ⟨⟨[104, 195, 169, 108, 108, 111], 0⟩, [], [], []⟩).buffer.readRec 2 =
      .ok ([104, 195, 169],
        ⟨⟨[104, 195, 169, 108, 108, 111], 4⟩, [], [108], []⟩) ∧
    (SpooledString.mk 1000 false
        ⟨⟨[104, 195, 169, 108, 108, 111], 0⟩, [], [], []⟩).read 2 =
      .ok ([104, 233],
        SpooledString.mk 1000 false
          ⟨⟨[104, 195, 169, 108, 108, 111], 4⟩, [], [108], []⟩) ∧
    (utf8Encode [104, 233] = [104, 195, 169] ∧
     utf8Decode [104, 195, 169] = some [104, 233]) :=
  ⟨rfl, rfl,
   c4_text_reads_completely_decoded.1
     (SpooledString.mk 1000 false
       ⟨⟨[104, 195, 169, 108, 108, 111], 0⟩, [], [], []⟩) 2
     [104, 195, 169] ⟨⟨[104, 195, 169, 108, 108, 111], 4⟩, [], [108], []⟩
     [104, 233]
     (SpooledString.mk 1000 false
       ⟨⟨[104, 195, 169, 108, 108, 111], 4⟩, [], [108], []⟩) rfl rfl⟩

/-- C6 (code bug): the source iterator body is a single yield of readline, so
iterating a stream that still holds two lines produces exactly one element,
the first remaining line, not the full remaining-line sequence that
readlines (splitLinesB on the remaining bytes) yields. -/
theorem c6_iteration_yields_single_line :
    (SpooledBytes.mk 100 false ⟨[97, 10, 98, 10], 0⟩).iterLines =
      ([[97, 10]], SpooledBytes.mk 100 false ⟨[97, 10, 98, 10], 2⟩) ∧
    splitLinesB [97, 10, 98, 10] = [[97, 10], [98, 10]] ∧
    ((SpooledBytes.mk 100 false ⟨[97, 10, 98, 10], 0⟩).iterLines).1 ≠
      splitLinesB [97, 10, 98, 10] := by
  refine ⟨rfl, rfl, ?_⟩
  decide

/-- C7: two streams compare equal exactly when their getvalue outputs are
equal (across variants, through the Python value equality), inequality is
the negation of equality, and comparison with any non-stream value is false
(so its negation is true). -/
theorem c7_equality_iff_getvalue :
    (∀ (a b : SpooledStream) (va vb : PyVal),
        a.getvalue = .ok va → b.getvalue = .ok vb →
        a.eq (.stream b) = .ok (decide (va = vb)) ∧
        a.ne (.stream b) = .ok (!decide (va = vb))) ∧
    (∀ a : SpooledStream,
        a.eq .notStream = .ok false ∧ a.ne .notStream = .ok true) := by
  refine ⟨fun a b va vb ha hb => ?_, fun a => ⟨rfl, rfl⟩⟩
  have he : a.eq (.stream b) = .ok (decide (va = vb)) := by
    simp only [SpooledStream.eq]
    rw [ha, hb]
  refine ⟨he, ?_⟩
  simp only [SpooledStream.ne]
  rw [he]

/-- Witness for C7: two distinct byte streams with identical content are
equal; a text stream with different content is unequal to them. -/
theorem c7_witness :
    (SpooledStream.ofBytes (SpooledBytes.mk 10 false ⟨[1], 0⟩)).getvalue =
      .ok (.bytes [1]) ∧
    (SpooledStream.ofBytes (SpooledBytes.mk 99 true ⟨[1], 1⟩)).getvalue =
      .ok (.bytes [1]) ∧
    ((SpooledStream.ofBytes (SpooledBytes.mk 10 false ⟨[1], 0⟩)).eq
        (.stream (.ofBytes (SpooledBytes.mk 99 true ⟨[1], 1⟩))) =
      .ok (decide ((PyVal.bytes [1]) = (PyVal.bytes [1]))) ∧
     (SpooledStream.ofBytes (SpooledBytes.mk 10 false ⟨[1], 0⟩)).ne
        (.stream (.ofBytes (SpooledBytes.mk 99 true ⟨[1], 1⟩))) =
      .ok (!decide ((PyVal.bytes [1]) = (PyVal.bytes [1])))) :=
  ⟨rfl, rfl, c7_equality_iff_getvalue.1 _ _ _ _ rfl rfl⟩

/-- C8: writing a value of the wrong kind fails immediately with a TypeError
whose message names the expected kind and the actual kind: non-bytes on the
byte variant, non-text (bytes included) on the text variant. -/
theorem c8_write_type_mismatch :
    (∀ (st : SpooledBytes) (v : PyVal), v.isBytes = false →
      st.write v = .error (.typeError ("bytes expected, got " ++ pyTypeName v))) ∧
    (∀ (st : SpooledString) (v : PyVal), v.isText = false →
      st.write v = .error (.typeError ("str expected, got " ++ pyTypeName v))) := by
  constructor
  · intro st v h
    cases v with
    | bytes s => simp [PyVal.isBytes] at h
    | text s => rfl
    | other n => rfl
  · intro st v h
    cases v with
    | bytes s => rfl
    | text s => simp [PyVal.isText] at h
    | other n => rfl

/-- Witness for C8: a text value written to the byte stream and a byte value
written to the text stream each raise the TypeError with both kinds named. -/
theorem c8_witness :
    (PyVal.text [104]).isBytes = false ∧
    (SpooledBytes.fresh 10).write (.text [104]) =
      .error (.typeError ("bytes expected, got " ++ pyTypeName (.text [104]))) ∧
    (PyVal.bytes [104]).isText = false ∧
    (SpooledString.fresh 10).write (.bytes [104]) =
      .error (.typeError ("str expected, got " ++ pyTypeName (.bytes [104]))) :=
  ⟨rfl, c8_write_type_mismatch.1 _ _ rfl, rfl, c8_write_type_mismatch.2 _ _ rfl⟩

/-- C9: truncate with a negative size fails immediately on both variants with
IOError(EINVAL), errno 22. -/
theorem c9_truncate_negative_size :
    (∀ (st : SpooledBytes) (sz : Int), sz < 0 →
      st.truncate (some sz) = .error (.ioError 22 "Negative size not allowed")) ∧
    (∀ (st : SpooledString) (sz : Int), sz < 0 →
      st.truncate (some sz) = .error (.ioError 22 "Negative size not allowed")) := by
  constructor
  · intro st sz h
    simp only [SpooledBytes.truncate, spooledTruncate]
    rw [if_pos h]
  · intro st sz h
    rw [SpooledString.truncate, if_pos h]

/-- Witness for C9 at truncate(-1) on fresh streams of both variants. -/
theorem c9_witness :
    (-1 : Int) < 0 ∧
    (SpooledBytes.fresh 5).truncate (some (-1)) =
      .error (.ioError 22 "Negative size not allowed") ∧
    (SpooledString.fresh 5).truncate (some (-1)) =
      .error (.ioError 22 "Negative size not allowed") :=
  ⟨by decide, c9_truncate_negative_size.1 _ _ (by decide),
   c9_truncate_negative_size.2 _ _ (by decide)⟩

/-- C10 (amended): fileno always rolls the stream over as a side effect: its
state effect equals rollover, any successful call leaves the stream
disk-backed even when the content never reached the threshold, and buffer
content and cursor are preserved — unconditionally on the byte variant, and
on the text variant whenever the buffered raw bytes are valid utf-8.  (At a
truncated-mid-character text state the forced rollover drops the truncated
tail: see the counterexample.) -/
theorem c10_fileno_forces_rollover :
    (∀ st : SpooledBytes,
      st.fileno.rolled = true ∧
      st.fileno.buffer.data = st.buffer.data ∧
      st.fileno.tell = st.tell ∧
      st.fileno = st.rollover) ∧
    (∀ st : SpooledString, st.fileno = st.rollover) ∧
    (∀ (st r : SpooledString), st.fileno = .ok r → r.rolled = true) ∧
    (∀ (st : SpooledString) (cs : List Nat), st.rolled = false →
      utf8Decode st.buffer.stream.data = some cs →
      ∃ r, st.fileno = .ok r ∧ r.rolled = true ∧
        r.buffer.stream.data = st.buffer.stream.data ∧ r.tell = st.tell) := by
  refine ⟨?_, fun st => rfl, fun st r h => stringRollover_ok_rolled st r h, ?_⟩
  · intro st
    refine ⟨?_, ?_, ?_, rfl⟩ <;>
      simp only [SpooledBytes.fileno, bytesRollover_eq] <;> rfl
  · intro st cs hr hv
    exact ⟨_, stringRollover_valid st cs hr hv, rfl, rfl, rfl⟩

/-- Counterexample to C10 as stated: at the in-memory text stream whose
buffer holds the lone lead byte 0xC3 (reachable by truncating after a
two-byte write), the fileno-forced rollover migrates empty content, so the
stored byte is not preserved. -/
theorem c10_counterexample :
    (SpooledString.mk 1000 false ⟨⟨[195], 1⟩, [], [], []⟩).rolled = false ∧
    (SpooledString.mk 1000 false ⟨⟨[195], 1⟩, [], [], []⟩).fileno =
      .ok (SpooledString.mk 1000 true ⟨⟨[], 1⟩, [], [], []⟩) ∧
    ([] : List Nat) ≠ [195] :=
  ⟨rfl, rfl, by decide⟩

/-- Witness for C10 at a concrete below-threshold text stream with valid
utf-8 content and the cursor at offset 1. -/
theorem c10_witness :
    (SpooledString.mk 7 false ⟨⟨[104, 196, 128], 1⟩, [], [], []⟩).rolled = false ∧
    utf8Decode [104, 196, 128] = some [104, 256] ∧
    (∃ r, (SpooledString.mk 7 false
        ⟨⟨[104, 196, 128], 1⟩, [], [], []⟩).fileno = .ok r ∧
      r.rolled = true ∧ r.buffer.stream.data = [104, 196, 128] ∧ r.tell = 1) :=
  ⟨rfl, rfl, c10_fileno_forces_rollover.2.2.2 _ [104, 256] rfl rfl⟩
